import Mathlib

/-!
Shallow embedding of `tpos/hw01/homework.py`, the tmux-based lifecycle
manager for homework web-server instances, together with proofs about the
claims of its specification.

Modelling conventions:
* The filesystem is flattened to cwd-relative path strings: a list of
  directory paths plus an association list of file paths to their text
  content.  `shutil.move` onto an existing plain file replaces it (POSIX
  rename semantics), which the model's `FS.move` mirrors.
* The single tmux session `homework` is modelled as `Option (List String)`:
  `none` when the session does not exist, `some ws` for its window names.
  tmux destroys a session when its last window is killed.
* `int(time.time())` is modelled by a `clock : Nat` field of the world,
  constant during one invocation.
* Exceptions (`HomeworkError` raise sites) are modelled as an `Option HwErr`
  result paired with the world reached at the point of the raise.
* Failure injection for the two fallible steps of `start` that the spec's
  rollback claims are about (the `shutil.copy2` call and the
  `tmux new-window` / `tmux new-session` call) is provided by a `Faults`
  record; all other external calls are modelled as succeeding.
-/

namespace HW

/-- `str(n)` for a natural number: decimal digits, most significant first.
Fuel-based so the recursion is structural; `natDigits` supplies enough fuel. -/
def digitChar : Nat → Char
  | 0 => '0' | 1 => '1' | 2 => '2' | 3 => '3' | 4 => '4'
  | 5 => '5' | 6 => '6' | 7 => '7' | 8 => '8' | 9 => '9'
  | _ => '*'

def digitVal : Char → Nat
  | '0' => 0 | '1' => 1 | '2' => 2 | '3' => 3 | '4' => 4
  | '5' => 5 | '6' => 6 | '7' => 7 | '8' => 8 | '9' => 9
  | _ => 0

def natDigitsAux : Nat → Nat → List Char
  | 0, _ => []
  | fuel + 1, n =>
    if n < 10 then [digitChar n]
    else natDigitsAux fuel (n / 10) ++ [digitChar (n % 10)]

/-- Decimal digit list of `n` (the digits of Python's `str(n)`). -/
def natDigits (n : Nat) : List Char := natDigitsAux (n + 1) n

/-- Decimal string of `n`, embedding Python's `str(timestamp)`. -/
def natStr (n : Nat) : String := ⟨natDigits n⟩

/-- Value of a digit list read back, base 10. -/
def digitsVal (l : List Char) : Nat := l.foldl (fun a c => a * 10 + digitVal c) 0

/-- Filesystem state: cwd-relative directory paths and file contents. -/
structure FS where
  dirs : List String
  files : List (String × String)
deriving DecidableEq, Repr

def FS.dirExists (fs : FS) (d : String) : Bool := fs.dirs.any (fun x => x == d)

def FS.fileExists (fs : FS) (p : String) : Bool := fs.files.any (fun e => e.1 == p)

/-- `Path.exists()`: true for a directory or a file at that path. -/
def FS.entryExists (fs : FS) (p : String) : Bool := fs.dirExists p || fs.fileExists p

/-- `read_text`: content of the file at `p`, if present. -/
def FS.readFile (fs : FS) (p : String) : Option String :=
  (fs.files.find? (fun e => e.1 == p)).map (fun e => e.2)

/-- `mkdir()` on a path known to be fresh. -/
def FS.mkdir (fs : FS) (d : String) : FS := { fs with dirs := d :: fs.dirs }

/-- `mkdir(exist_ok=True)`. -/
def FS.mkdirP (fs : FS) (d : String) : FS := if fs.dirExists d then fs else fs.mkdir d

/-- Write `c` to `p`, replacing any previous file at `p`. -/
def FS.writeFile (fs : FS) (p c : String) : FS :=
  { fs with files := (p, c) :: fs.files.filter (fun e => e.1 != p) }

def FS.removeFile (fs : FS) (p : String) : FS :=
  { fs with files := fs.files.filter (fun e => e.1 != p) }

/-- `Path.touch()`: creates an empty file when absent, leaves content intact
when the path already exists. -/
def FS.touch (fs : FS) (p : String) : FS :=
  if fs.fileExists p then fs else fs.writeFile p ""

/-- `shutil.move(src, dst)` onto a plain-file destination: POSIX rename,
silently replacing an existing file at `dst`. -/
def FS.move (fs : FS) (src dst : String) : FS :=
  match fs.readFile src with
  | none => fs
  | some c => (fs.removeFile src).writeFile dst c

/-- Is path `p` strictly inside directory `d` (i.e. `d ++ "/"` begins `p`)? -/
def underDir (d p : String) : Bool := (d ++ "/").data.isPrefixOf p.data

/-- `shutil.rmtree(d)`: removes the directory `d` and everything beneath it. -/
def FS.rmtree (fs : FS) (d : String) : FS :=
  { dirs := fs.dirs.filter (fun x => !(x == d) && !underDir d x),
    files := fs.files.filter (fun e => !underDir d e.1) }

/-- State of the single tmux session `homework`: `none` when the session
does not exist, otherwise the list of its window names. -/
structure Tmux where
  windows : Option (List String)
deriving DecidableEq, Repr

/-- `tmux has-session` classified to a boolean. -/
def Tmux.sessionExists (t : Tmux) : Bool := t.windows.isSome

/-- `tmux_window_exists`: membership of `w` in the window-name listing. -/
def Tmux.windowExists (t : Tmux) (w : String) : Bool :=
  match t.windows with
  | none => false
  | some ws => ws.any (fun x => x == w)

/-- `tmux_list_windows`: empty when the session is absent. -/
def Tmux.listWindows (t : Tmux) : List String := t.windows.getD []

def Tmux.killSession (_t : Tmux) : Tmux := ⟨none⟩

/-- `tmux kill-window`: removing the last window destroys the session. -/
def Tmux.killWindow (t : Tmux) (w : String) : Tmux :=
  match t.windows with
  | none => t
  | some ws =>
    let ws' := ws.filter (fun x => !(x == w))
    ⟨if ws'.isEmpty then none else some ws'⟩

def Tmux.newWindow (t : Tmux) (w : String) : Tmux :=
  match t.windows with
  | none => ⟨some [w]⟩
  | some ws => ⟨some (ws ++ [w])⟩

def Tmux.newSession (w : String) : Tmux := ⟨some [w]⟩

/-- World state seen by one invocation of the tool. -/
structure World where
  fs : FS
  tmux : Tmux
  clock : Nat
deriving DecidableEq, Repr

/-- The tmux mutation commands the controller can issue. -/
inductive TmuxCmd where
  | killWindow (w : String)
  | killSession
  | newWindow (w : String)
  | newSession (w : String)
deriving DecidableEq, Repr

/-- The raise sites of `HomeworkError`, one constructor per distinct
diagnostic message. -/
inductive HwErr where
  | serverNotFound
  | dirAlreadyExists (d : String)
  | windowAlreadyExists (w : String)
  | copyFailed (d : String)
  | tmuxCommandFailed (c : String)
  | dirNotFound (d : String)
  | sessionNotFound
  | windowNotFound (w : String)
  | moveFailed (src : String)
  | removeFailed (d : String)
  | readFailed (p : String)
deriving DecidableEq, Repr

/-- The already-exists / not-found errors of the spec's `PreconditionFailed`
taxonomy (§7): everything except external-tool and copy failures. -/
def HwErr.isPrecondition : HwErr → Bool
  | .serverNotFound => true
  | .dirAlreadyExists _ => true
  | .windowAlreadyExists _ => true
  | .dirNotFound _ => true
  | .sessionNotFound => true
  | .windowNotFound _ => true
  | _ => false

/-- `validate_server_name`'s acceptance test: `re.fullmatch("[a-z]{1,32}", s)`. -/
def isLowerAZ (c : Char) : Bool := 'a' ≤ c && c ≤ 'z'

def validName (s : String) : Bool :=
  decide (1 ≤ s.data.length) && decide (s.data.length ≤ 32) && s.data.all isLowerAZ

/-- Python's `s.endswith(t)`. -/
def strEndsWith (s t : String) : Bool := t.data.isSuffixOf s.data

/-- Injected failures for the two fallible steps of `start_instance`. -/
structure Faults where
  copyFails : Bool
  tmuxNewFails : Bool
deriving DecidableEq, Repr

/-- `.backup/out_<name>_<ts>.txt`, the backup path built in
`stop_instance` and `stop_all_instances`. -/
def out_backup_name (name : String) (ts : Nat) : String :=
  ".backup/out_" ++ name ++ "_" ++ natStr ts ++ ".txt"

/-- Lexicographic code-point comparison of character lists: the order
Python's `sorted` uses on `str`. -/
def listCharLe : List Char → List Char → Bool
  | [], _ => true
  | _ :: _, [] => false
  | a :: as, b :: bs =>
    if a.toNat < b.toNat then true
    else if b.toNat < a.toNat then false
    else listCharLe as bs

def strLe (a b : String) : Bool := listCharLe a.data b.data

/-- Ascending sort of a list of names, embedding Python's `sorted(...)`
(lexicographic on code points). -/
def sortedNames (l : List String) : List String :=
  List.insertionSort (fun a b : String => strLe a b = true) l

instance : IsTotal String (fun a b : String => strLe a b = true) := ⟨by
  have key : ∀ as bs : List Char,
      listCharLe as bs = true ∨ listCharLe bs as = true := by
    intro as
    induction as with
    | nil => intro bs; left; rfl
    | cons a as ih =>
      intro bs
      cases bs with
      | nil => right; rfl
      | cons b bs =>
        simp only [listCharLe]
        by_cases h1 : a.toNat < b.toNat
        · left; rw [if_pos h1]
        · by_cases h2 : b.toNat < a.toNat
          · right; rw [if_pos h2]
          · rw [if_neg h1, if_neg h2, if_neg h2, if_neg h1]
            exact ih bs
  exact fun a b => key a.data b.data⟩

instance : IsTrans String (fun a b : String => strLe a b = true) := ⟨by
  have key : ∀ as bs cs : List Char, listCharLe as bs = true →
      listCharLe bs cs = true → listCharLe as cs = true := by
    intro as
    induction as with
    | nil => intro bs cs _ _; rfl
    | cons a as ih =>
      intro bs cs h1 h2
      cases bs with
      | nil => simp [listCharLe] at h1
      | cons b bs =>
        cases cs with
        | nil => simp [listCharLe] at h2
        | cons c cs =>
          simp only [listCharLe] at h1 h2 ⊢
          by_cases hbc : b.toNat < c.toNat
          · by_cases hab : a.toNat < b.toNat
            · rw [if_pos (show a.toNat < c.toNat by omega)]
            · by_cases hba : b.toNat < a.toNat
              · rw [if_neg hab, if_pos hba] at h1
                exact absurd h1 (by decide)
              · rw [if_pos (show a.toNat < c.toNat by omega)]
          · by_cases hcb : c.toNat < b.toNat
            · rw [if_neg hbc, if_pos hcb] at h2
              exact absurd h2 (by decide)
            · rw [if_neg hbc, if_neg hcb] at h2
              by_cases hab : a.toNat < b.toNat
              · rw [if_pos (show a.toNat < c.toNat by omega)]
              · by_cases hba : b.toNat < a.toNat
                · rw [if_neg hab, if_pos hba] at h1
                  exact absurd h1 (by decide)
                · rw [if_neg hab, if_neg hba] at h1
                  rw [if_neg (show ¬a.toNat < c.toNat by omega),
                    if_neg (show ¬c.toNat < a.toNat by omega)]
                  exact ih bs cs h1 h2
  exact fun a b c => key a.data b.data c.data⟩

/-- `start_instance`.  Returns the world at exit together with the raised
error, if any.  The launch-command construction (a fixed string) carries no
state and is not modelled beyond the choice between `new-window` and
`new-session`. -/
def start_instance (f : Faults) (w : World) (name : String) (_port : Int) :
    World × Option HwErr :=
  if !(w.fs.fileExists "server.py") then (w, some .serverNotFound)
  else if w.fs.entryExists name then (w, some (.dirAlreadyExists name))
  else
    let session_exists := w.tmux.sessionExists
    if session_exists && w.tmux.windowExists name then
      (w, some (.windowAlreadyExists name))
    else
      let fs1 := w.fs.mkdir name
      if f.copyFails then
        -- cleanup to avoid leaving a half-prepared instance directory
        ({ w with fs := fs1.rmtree name }, some (.copyFailed name))
      else
        let fs2 := fs1.writeFile (name ++ "/server.py")
          ((w.fs.readFile "server.py").getD "")
        if f.tmuxNewFails then
          ({ w with fs := fs2.rmtree name },
           some (.tmuxCommandFailed
             (if session_exists then "new-window" else "new-session")))
        else
          let tmux' :=
            if session_exists then w.tmux.newWindow name
            else Tmux.newSession name
          ({ w with fs := fs2, tmux := tmux' }, none)

/-- `stop_instance`.  The backup filename uses the raw timestamp
`int(time.time())`; there is no collision-avoidance loop here. -/
def stop_instance (w : World) (name : String) : World × Option HwErr :=
  if !(w.fs.entryExists name) then (w, some (.dirNotFound name))
  else if !w.tmux.sessionExists then (w, some .sessionNotFound)
  else if !(w.tmux.windowExists name) then (w, some (.windowNotFound name))
  else
    let tmux1 := w.tmux.killWindow name
    let fs1 := w.fs.mkdirP ".backup"
    let timestamp := w.clock
    let dest := out_backup_name name timestamp
    let outp := name ++ "/out.txt"
    let fs2 := if fs1.fileExists outp then fs1.move outp dest else fs1.touch dest
    let fs3 := fs2.rmtree name
    ({ w with fs := fs3, tmux := tmux1 }, none)

/-- The `while dest_path.exists(): timestamp += 1` loop of
`stop_all_instances`, fuel-based.  `freshTimestamp` supplies enough fuel
for the loop to terminate at a free filename (proved below). -/
def freshTimestampAux (fs : FS) (name : String) : Nat → Nat → Nat
  | 0, ts => ts
  | fuel + 1, ts =>
    if fs.fileExists (out_backup_name name ts) then
      freshTimestampAux fs name fuel (ts + 1)
    else ts

def freshTimestamp (fs : FS) (name : String) (ts : Nat) : Nat :=
  freshTimestampAux fs name (fs.files.length + 1) ts

/-- One iteration of the `stop_all_instances` directory loop: pick a
collision-free backup filename, move the log (or create an empty
placeholder), then remove the directory. -/
def archive_one (clock : Nat) (fs : FS) (name : String) : FS :=
  let ts := freshTimestamp fs name clock
  let dest := out_backup_name name ts
  let outp := name ++ "/out.txt"
  let fs2 := if fs.fileExists outp then fs.move outp dest else fs.touch dest
  fs2.rmtree name

def stop_all_loop (clock : Nat) (fs : FS) : List String → FS
  | [] => fs
  | n :: rest => stop_all_loop clock (archive_one clock fs n) rest

/-- External interference observable between the start of
`stop_all_instances` and its final session re-probe: `some ws` means an
external actor has (re)created the session with windows `ws` by the time
the re-probe runs; `none` means a quiescent environment. -/
structure Env where
  respawned : Option (List String)
deriving DecidableEq, Repr

structure StopAllResult where
  world : World
  trace : List TmuxCmd
deriving DecidableEq, Repr

/-- `stop_all_instances`.  The initial `kill-session` tolerates the benign
"can't find session" diagnostic; filesystem moves and removals are modelled
as succeeding (their failure branches re-raise and are not needed by any
claim).  `trace` records the `kill-session` commands issued. -/
def stop_all_instances (env : Env) (w : World) : StopAllResult :=
  let session_existed := w.tmux.sessionExists
  let tmux1 := if session_existed then w.tmux.killSession else w.tmux
  let trace1 : List TmuxCmd :=
    if session_existed then [TmuxCmd.killSession] else []
  let fs1 := w.fs.mkdirP ".backup"
  let names := sortedNames (fs1.dirs.filter (fun d => validName d))
  let fs2 := stop_all_loop w.clock fs1 names
  let tmux2 :=
    match env.respawned with
    | some ws => Tmux.mk (some ws)
    | none => tmux1
  if session_existed && tmux2.sessionExists then
    ⟨⟨fs2, tmux2.killSession, w.clock⟩, trace1 ++ [TmuxCmd.killSession]⟩
  else
    ⟨⟨fs2, tmux2, w.clock⟩, trace1⟩

/-- One instance block of `collect_all_instances`: the header line plus the
log content, the latter printed with a newline appended only when the
content does not already end in one (`print(content, end=...)`). -/
def collect_block (fs : FS) (name : String) : String :=
  let header := "=== server: " ++ name ++ " ===" ++ "\n"
  match fs.readFile (name ++ "/out.txt") with
  | none => header
  | some content =>
    if content == "" then header
    else header ++ content ++ (if strEndsWith content "\n" then "" else "\n")

/-- The printing loop of `collect_all_instances`: a separating blank line
(`print()`) before every block except the first. -/
def collect_lines (fs : FS) : List String → Bool → String
  | [], _ => ""
  | n :: rest, first =>
    (if first then "" else "\n") ++ collect_block fs n ++
      collect_lines fs rest false

/-- `collect_all_instances` as the string it prints to stdout. -/
def collect_all_instances (w : World) : String :=
  if !w.tmux.sessionExists then ""
  else collect_lines w.fs (sortedNames w.tmux.listWindows) true

/-- Joining with a separator; used to state the shape of the collected
output. -/
def joinSep (sep : String) : List String → String
  | [] => ""
  | [x] => x
  | x :: y :: xs => x ++ sep ++ joinSep sep (y :: xs)

/-- `validate_server_name`: the accepted name, or `none` for the
`argparse.ArgumentTypeError` raise. -/
def validate_server_name (s : String) : Option String :=
  if validName s then some s else none

def isDigitChar (c : Char) : Bool := 48 ≤ c.toNat && c.toNat ≤ 57

/-- `int(value)` on a digit string with an optional sign.  (Python's `int`
also strips surrounding whitespace and allows underscores between digits;
immaterial to every claim.) -/
def pyInt (s : String) : Option Int :=
  match s.data with
  | [] => none
  | '-' :: rest =>
    if !rest.isEmpty && rest.all isDigitChar then some (-(digitsVal rest : Int))
    else none
  | '+' :: rest =>
    if !rest.isEmpty && rest.all isDigitChar then some (digitsVal rest : Int)
    else none
  | l =>
    if l.all isDigitChar then some (digitsVal l : Int) else none

/-- `validate_port`: `int(value)`, or `none` for the
`argparse.ArgumentTypeError` raise. -/
def validate_port (s : String) : Option Int := pyInt s

/-- One invocation's command line, after argparse has recognised its
shape: `noSubcommand` is an argv with no subcommand at all, `badUsage` an
argv argparse rejects outright (unknown subcommand, missing required
flag), and the rest carry the raw `--name` / `--port` values. -/
inductive CliInput where
  | noSubcommand
  | badUsage
  | startArgs (name port : String)
  | stopArgs (name : String)
  | stopAllArgs
  | collectAllArgs
deriving DecidableEq, Repr

/-- Does argparse itself reject the invocation?  A `type=` validator that
raises `ArgumentTypeError` makes `parser.error` terminate the process with
status 2 (Python stdlib behaviour), before `main`'s own try/except runs. -/
def argparse_rejects : CliInput → Bool
  | .badUsage => true
  | .startArgs n p => !validName n || (validate_port p).isNone
  | .stopArgs n => !validName n
  | _ => false

/-- Injected failures for the fallible external-tool and filesystem steps
of `stop_all_instances` and `collect_all_instances`, whose
`HomeworkError` raise sites `main` maps to exit status 1.
`killSessionFails`: the initial `tmux kill-session` exits non-zero with a
diagnostic other than the tolerated "can't find session";
`finalKillFails`: the final `kill-session` (whose failure
`run_tmux_command` propagates untolerated) exits non-zero; `moveFails`:
`shutil.move` of a log file raises; `rmtreeFails`: `shutil.rmtree` of an
instance directory raises; `readFails`: `read_text` on an existing log
raises. -/
structure IOFaults where
  killSessionFails : Bool
  finalKillFails : Bool
  moveFails : Bool
  rmtreeFails : Bool
  readFails : Bool
deriving DecidableEq, Repr

/-- The first `HomeworkError` raised inside the directory loop of
`stop_all_instances` under the injected failures, in the loop's own
order — per directory the log move (attempted only when the log exists;
`touch` is not a `HomeworkError` raise site) precedes the directory
removal — threading the same state evolution as `stop_all_loop` via
`archive_one`, since a failure aborts the whole operation at that
directory. -/
def stop_all_loop_err (io : IOFaults) (clock : Nat) (fs : FS) :
    List String → Option HwErr
  | [] => none
  | n :: rest =>
    if fs.fileExists (n ++ "/out.txt") && io.moveFails then
      some (.moveFailed (n ++ "/out.txt"))
    else if io.rmtreeFails then
      some (.removeFailed n)
    else stop_all_loop_err io clock (archive_one clock fs n) rest

/-- The `HomeworkError` one run of `stop_all_instances` reports, if any
(`stop_all_instances` itself gives the state and command trace of the
successful run).  Raise sites in program order: the initial
`kill-session` when the session existed (re-raised unless the benign
"can't find session" diagnostic), the move/rmtree failures of the
directory loop, and the final `kill-session`, issued when the session
existed at entry and still exists at the re-probe — after the loop the
session exists exactly when the environment respawned it. -/
def stop_all_err (io : IOFaults) (env : Env) (w : World) : Option HwErr :=
  if w.tmux.sessionExists && io.killSessionFails then
    some (.tmuxCommandFailed "kill-session")
  else
    let fs1 := w.fs.mkdirP ".backup"
    let names := sortedNames (fs1.dirs.filter (fun d => validName d))
    match stop_all_loop_err io w.clock fs1 names with
    | some e => some e
    | none =>
      if w.tmux.sessionExists && env.respawned.isSome && io.finalKillFails
      then some (.tmuxCommandFailed "kill-session")
      else none

/-- The `HomeworkError` `collect_all_instances` reports, if any: with the
session present, a `read_text` failure aborts at the first window (in
sorted order) whose log file exists; without the session, or with no
window owning a log, nothing is read. -/
def collect_all_err (io : IOFaults) (w : World) : Option HwErr :=
  if !w.tmux.sessionExists then none
  else
    match (sortedNames w.tmux.listWindows).find?
        (fun n => w.fs.fileExists (n ++ "/out.txt")) with
    | none => none
    | some n =>
      if io.readFails then some (.readFailed (n ++ "/out.txt")) else none

/-- Is the invocation one with no subcommand at all (`args` lacks `func`,
so `main` prints help and returns 1)? -/
def missing_subcommand : CliInput → Bool
  | .noSubcommand => true
  | _ => false

/-- The `HomeworkError` the invocation reports — the exception `main`'s
try/except catches — when argparse accepts the command line; `none` when
the dispatched operation completes (or when argparse exits first, so no
operation runs). -/
def main_err (f : Faults) (io : IOFaults) (env : Env) (w : World) :
    CliInput → Option HwErr
  | .noSubcommand => none
  | .badUsage => none
  | .startArgs n p =>
    match validate_server_name n, validate_port p with
    | some n', some port => (start_instance f w n' port).2
    | _, _ => none
  | .stopArgs n =>
    match validate_server_name n with
    | some n' => (stop_instance w n').2
    | none => none
  | .stopAllArgs => stop_all_err io env w
  | .collectAllArgs => collect_all_err io w

/-- The process exit status of one invocation: `main` returns 0 on
success and 1 on a caught `HomeworkError` (from any of the four
subcommands) or a missing subcommand, while argparse exits with status 2
on its own errors. -/
def run_cli (f : Faults) (io : IOFaults) (env : Env) (w : World) :
    CliInput → Nat
  | .noSubcommand => 1
  | .badUsage => 2
  | .startArgs n p =>
    match validate_server_name n with
    | none => 2
    | some n' =>
      match validate_port p with
      | none => 2
      | some port =>
        match (start_instance f w n' port).2 with
        | some _ => 1
        | none => 0
  | .stopArgs n =>
    match validate_server_name n with
    | none => 2
    | some n' =>
      match (stop_instance w n').2 with
      | some _ => 1
      | none => 0
  | .stopAllArgs =>
    match stop_all_err io env w with
    | some _ => 1
    | none => 0
  | .collectAllArgs =>
    match collect_all_err io w with
    | some _ => 1
    | none => 0

theorem digitVal_digitChar : ∀ d, d < 10 → digitVal (digitChar d) = d := by decide

theorem digitsVal_append (xs : List Char) (c : Char) :
    digitsVal (xs ++ [c]) = digitsVal xs * 10 + digitVal c := by
  simp [digitsVal, List.foldl_append]

theorem digitsVal_natDigitsAux :
    ∀ fuel n, n < fuel → digitsVal (natDigitsAux fuel n) = n := by
  intro fuel
  induction fuel with
  | zero => intro n h; omega
  | succ fuel ih =>
    intro n h
    by_cases hn : n < 10
    · simp only [natDigitsAux, if_pos hn, digitsVal, List.foldl]
      rw [digitVal_digitChar n hn]
      omega
    · have hdiv : n / 10 < n := Nat.div_lt_self (by omega) (by omega)
      have hmod : n % 10 < 10 := Nat.mod_lt _ (by omega)
      have hdm := Nat.div_add_mod n 10
      simp only [natDigitsAux, if_neg hn]
      rw [digitsVal_append, ih (n / 10) (by omega), digitVal_digitChar _ hmod]
      omega

theorem natStr_inj {a b : Nat} (h : natStr a = natStr b) : a = b := by
  have hd : natDigitsAux (a + 1) a = natDigitsAux (b + 1) b :=
    congrArg String.data h
  have ha := digitsVal_natDigitsAux (a + 1) a (Nat.lt_succ_self a)
  have hb := digitsVal_natDigitsAux (b + 1) b (Nat.lt_succ_self b)
  rw [← ha, ← hb, hd]

theorem out_backup_name_inj {name : String} {t₁ t₂ : Nat}
    (h : out_backup_name name t₁ = out_backup_name name t₂) : t₁ = t₂ := by
  have hd := congrArg String.data h
  simp only [out_backup_name, String.data_append] at hd
  have h1 := List.append_cancel_right hd
  have h2 : (natStr t₁).data = (natStr t₂).data := List.append_cancel_left h1
  exact natStr_inj (String.ext h2)

theorem fileExists_iff (fs : FS) (p : String) :
    fs.fileExists p = true ↔ ∃ c, (p, c) ∈ fs.files := by
  simp only [FS.fileExists, List.any_eq_true, beq_iff_eq]
  constructor
  · rintro ⟨⟨q, c⟩, hmem, rfl⟩
    exact ⟨c, hmem⟩
  · rintro ⟨c, hmem⟩
    exact ⟨(p, c), hmem, rfl⟩

theorem exists_free_ts (fs : FS) (name : String) (ts : Nat) :
    ∃ k, k ≤ fs.files.length ∧
      fs.fileExists (out_backup_name name (ts + k)) = false := by
  by_contra hc
  push_neg at hc
  have hall : ∀ k, k ≤ fs.files.length →
      fs.fileExists (out_backup_name name (ts + k)) = true := by
    intro k hk
    have := hc k hk
    revert this
    cases fs.fileExists (out_backup_name name (ts + k)) <;> simp
  set n := fs.files.length with hn
  set f : Nat → String := fun k => out_backup_name name (ts + k) with hf
  have hinj : Function.Injective f := by
    intro x y hxy
    have := out_backup_name_inj hxy
    omega
  set L : List String := (List.range (n + 1)).map f with hL
  have hnodup : L.Nodup := (List.nodup_range _).map hinj
  have hsub : L.toFinset ⊆ (fs.files.map Prod.fst).toFinset := by
    intro x hx
    rw [List.mem_toFinset] at hx
    rw [List.mem_toFinset]
    rcases List.mem_map.mp hx with ⟨k, hk, rfl⟩
    have hk' : k ≤ n := by
      have := List.mem_range.mp hk
      omega
    rcases (fileExists_iff fs (f k)).mp (hall k hk') with ⟨c, hmem⟩
    exact List.mem_map.mpr ⟨(f k, c), hmem, rfl⟩
  have hcard1 : L.toFinset.card = n + 1 := by
    rw [List.toFinset_card_of_nodup hnodup]
    simp [hL]
  have hcard2 : (fs.files.map Prod.fst).toFinset.card ≤ n := by
    calc (fs.files.map Prod.fst).toFinset.card
        ≤ (fs.files.map Prod.fst).length := List.toFinset_card_le _
      _ = n := by simp [hn]
  have := Finset.card_le_card hsub
  omega

theorem freshTimestampAux_free (fs : FS) (name : String) :
    ∀ fuel ts, (∃ k, k < fuel ∧
        fs.fileExists (out_backup_name name (ts + k)) = false) →
      fs.fileExists (out_backup_name name (freshTimestampAux fs name fuel ts))
        = false := by
  intro fuel
  induction fuel with
  | zero => intro ts ⟨k, hk, _⟩; omega
  | succ fuel ih =>
    intro ts ⟨k, hk, hfree⟩
    by_cases hhead : fs.fileExists (out_backup_name name ts) = true
    · simp only [freshTimestampAux, if_pos hhead]
      apply ih
      have hk0 : k ≠ 0 := by
        intro h0
        rw [h0, Nat.add_zero] at hfree
        rw [hfree] at hhead
        exact Bool.false_ne_true hhead
      exact ⟨k - 1, by omega, by
        have : ts + 1 + (k - 1) = ts + k := by omega
        rw [this]; exact hfree⟩
    · simp only [freshTimestampAux, if_neg hhead]
      revert hhead
      cases fs.fileExists (out_backup_name name ts) <;> simp

theorem freshTimestamp_free (fs : FS) (name : String) (ts : Nat) :
    fs.fileExists (out_backup_name name (freshTimestamp fs name ts)) = false := by
  apply freshTimestampAux_free
  rcases exists_free_ts fs name ts with ⟨k, hk, hfree⟩
  exact ⟨k, by omega, hfree⟩

theorem dirExists_iff (fs : FS) (d : String) :
    fs.dirExists d = true ↔ d ∈ fs.dirs := by
  simp only [FS.dirExists, List.any_eq_true, beq_iff_eq]
  constructor
  · rintro ⟨x, hx, rfl⟩; exact hx
  · intro h; exact ⟨d, h, rfl⟩

theorem mem_files_ne (fs : FS) {p c q} (hmem : (p, c) ∈ fs.files)
    (hfree : fs.fileExists q = false) : p ≠ q := by
  rintro rfl
  have : fs.fileExists p = true := (fileExists_iff fs p).mpr ⟨c, hmem⟩
  rw [this] at hfree
  exact absurd hfree (by decide)

theorem mem_writeFile_of_ne (fs : FS) {p c q c'} (hmem : (p, c) ∈ fs.files)
    (hne : p ≠ q) : (p, c) ∈ (fs.writeFile q c').files := by
  simp only [FS.writeFile]
  exact List.mem_cons_of_mem _ (List.mem_filter.mpr ⟨hmem, by simpa using hne⟩)

theorem mem_removeFile_of_ne (fs : FS) {p c q} (hmem : (p, c) ∈ fs.files)
    (hne : p ≠ q) : (p, c) ∈ (fs.removeFile q).files := by
  simp only [FS.removeFile]
  exact List.mem_filter.mpr ⟨hmem, by simpa using hne⟩

theorem mem_rmtree_files (fs : FS) {p c d} (hmem : (p, c) ∈ fs.files)
    (hout : underDir d p = false) : (p, c) ∈ (fs.rmtree d).files := by
  simp only [FS.rmtree]
  exact List.mem_filter.mpr ⟨hmem, by simp [hout]⟩

theorem underDir_out (d : String) : underDir d (d ++ "/out.txt") = true := by
  simp only [underDir]
  rw [List.isPrefixOf_iff_prefix]
  rw [String.data_append, String.data_append]
  have h : ("/out.txt" : String).data = ['/'] ++ "out.txt".data := rfl
  rw [h]
  exact ⟨"out.txt".data, by simp⟩

theorem writeFile_dirs (fs : FS) (p c : String) :
    (fs.writeFile p c).dirs = fs.dirs := rfl

theorem removeFile_dirs (fs : FS) (p : String) :
    (fs.removeFile p).dirs = fs.dirs := rfl

theorem touch_dirs (fs : FS) (p : String) : (fs.touch p).dirs = fs.dirs := by
  simp only [FS.touch]
  by_cases h : fs.fileExists p = true
  · rw [if_pos h]
  · rw [if_neg h, writeFile_dirs]

theorem move_dirs (fs : FS) (src dst : String) :
    (fs.move src dst).dirs = fs.dirs := by
  simp only [FS.move]
  cases fs.readFile src with
  | none => rfl
  | some c => rfl

theorem mem_rmtree_dirs (fs : FS) (x d : String) :
    d ∈ (fs.rmtree x).dirs ↔ d ∈ fs.dirs ∧ d ≠ x ∧ underDir x d = false := by
  simp only [FS.rmtree, List.mem_filter, Bool.and_eq_true, Bool.not_eq_true',
    beq_eq_false_iff_ne]

theorem archive_one_files (clock : Nat) (fs : FS) (n : String) {p c}
    (hmem : (p, c) ∈ fs.files) (hout : underDir n p = false) :
    (p, c) ∈ (archive_one clock fs n).files := by
  simp only [archive_one]
  set ts := freshTimestamp fs n clock with hts
  have hfree := freshTimestamp_free fs n clock
  have hpd : p ≠ out_backup_name n ts := mem_files_ne fs hmem hfree
  apply mem_rmtree_files _ _ hout
  by_cases hsrc : fs.fileExists (n ++ "/out.txt") = true
  · rw [if_pos hsrc]
    have hpsrc : p ≠ n ++ "/out.txt" := by
      rintro rfl
      rw [underDir_out] at hout
      exact absurd hout (by decide)
    simp only [FS.move]
    cases hread : fs.readFile (n ++ "/out.txt") with
    | none => exact hmem
    | some c' =>
      exact mem_writeFile_of_ne _ (mem_removeFile_of_ne _ hmem hpsrc) hpd
  · rw [if_neg hsrc]
    simp only [FS.touch]
    rw [if_neg (by rw [hfree]; exact Bool.false_ne_true)]
    exact mem_writeFile_of_ne _ hmem hpd

theorem archive_one_dirs (clock : Nat) (fs : FS) (n d : String) :
    d ∈ (archive_one clock fs n).dirs ↔
      d ∈ fs.dirs ∧ d ≠ n ∧ underDir n d = false := by
  simp only [archive_one]
  rw [mem_rmtree_dirs]
  by_cases hsrc : fs.fileExists (n ++ "/out.txt") = true
  · rw [if_pos hsrc, move_dirs]
  · rw [if_neg hsrc, touch_dirs]

theorem stop_all_loop_files (clock : Nat) :
    ∀ (names : List String) (fs : FS) (p c : String),
      (p, c) ∈ fs.files → (∀ n ∈ names, underDir n p = false) →
      (p, c) ∈ (stop_all_loop clock fs names).files := by
  intro names
  induction names with
  | nil => intro fs p c hmem _; exact hmem
  | cons n rest ih =>
    intro fs p c hmem hout
    simp only [stop_all_loop]
    exact ih _ _ _
      (archive_one_files clock fs n hmem (hout n (List.mem_cons_self n rest)))
      (fun m hm => hout m (List.mem_cons_of_mem n hm))

theorem stop_all_loop_dirs (clock : Nat) :
    ∀ (names : List String) (fs : FS) (d : String),
      d ∈ (stop_all_loop clock fs names).dirs ↔
        d ∈ fs.dirs ∧ ∀ n ∈ names, d ≠ n ∧ underDir n d = false := by
  intro names
  induction names with
  | nil => intro fs d; simp [stop_all_loop]
  | cons n rest ih =>
    intro fs d
    simp only [stop_all_loop]
    rw [ih]
    rw [archive_one_dirs]
    constructor
    · rintro ⟨⟨h1, h2, h3⟩, h4⟩
      refine ⟨h1, fun m hm => ?_⟩
      rcases List.mem_cons.mp hm with rfl | hm'
      · exact ⟨h2, h3⟩
      · exact h4 m hm'
    · rintro ⟨h1, h2⟩
      rcases h2 n (List.mem_cons_self n rest) with ⟨h3, h4⟩
      exact ⟨⟨h1, h3, h4⟩, fun m hm => h2 m (List.mem_cons_of_mem n hm)⟩

theorem sortedNames_sorted (l : List String) :
    List.Sorted (fun a b : String => strLe a b = true) (sortedNames l) :=
  List.sorted_insertionSort _ l

theorem sortedNames_perm (l : List String) : List.Perm (sortedNames l) l :=
  List.perm_insertionSort _ l

theorem mem_sortedNames {l : List String} {x : String} :
    x ∈ sortedNames l ↔ x ∈ l :=
  (sortedNames_perm l).mem_iff

theorem mkdirP_files (fs : FS) (x : String) : (fs.mkdirP x).files = fs.files := by
  simp only [FS.mkdirP]
  by_cases h : fs.dirExists x = true
  · rw [if_pos h]
  · rw [if_neg h]; rfl

theorem mem_mkdirP_dirs (fs : FS) (x d : String) :
    d ∈ (fs.mkdirP x).dirs ↔ d = x ∨ d ∈ fs.dirs := by
  simp only [FS.mkdirP]
  by_cases h : fs.dirExists x = true
  · rw [if_pos h]
    constructor
    · exact Or.inr
    · rintro (rfl | hd)
      · exact (dirExists_iff fs d).mp h
      · exact hd
  · rw [if_neg h]
    simp [FS.mkdir]

theorem validName_head (n : String) (hn : validName n = true) :
    ∃ c cs, n.data = c :: cs ∧ isLowerAZ c = true := by
  simp only [validName, Bool.and_eq_true, decide_eq_true_eq,
    List.all_eq_true] at hn
  rcases hn with ⟨⟨h1, _⟩, hall⟩
  cases hd : n.data with
  | nil => rw [hd] at h1; simp at h1
  | cons c cs =>
    refine ⟨c, cs, rfl, ?_⟩
    exact hall c (by rw [hd]; exact List.mem_cons_self c cs)

/-- A path whose first character is `.` is not inside a directory whose
name matches `[a-z]{1,32}`. -/
theorem underDir_false_of_dot (n p : String) (hn : validName n = true)
    (hp : p.data.head? = some '.') : underDir n p = false := by
  rcases validName_head n hn with ⟨c, cs, hcons, hlow⟩
  cases h : underDir n p with
  | false => rfl
  | true =>
    exfalso
    have hpre : (n ++ "/").data <+: p.data := by
      rw [← List.isPrefixOf_iff_prefix]
      exact h
    rw [String.data_append, hcons] at hpre
    cases hpd : p.data with
    | nil => rw [hpd] at hp; simp at hp
    | cons q qs =>
      rw [hpd] at hp
      simp only [List.head?] at hp
      have hq : q = '.' := by injection hp
      rw [hpd] at hpre
      have := (List.cons_prefix_cons.mp (by simpa using hpre)).1
      rw [hq] at this
      rw [this] at hlow
      exact absurd hlow (by decide)

theorem underDir_backup_head (p : String) (h : underDir ".backup" p = true) :
    p.data.head? = some '.' := by
  have hpre : (".backup" ++ "/").data <+: p.data := by
    rw [← List.isPrefixOf_iff_prefix]
    exact h
  have hd : (".backup" ++ "/").data = '.' :: ".backup/".data.tail := rfl
  rw [hd] at hpre
  cases hpd : p.data with
  | nil =>
    rw [hpd] at hpre
    rcases hpre with ⟨t, ht⟩
    simp at ht
  | cons q qs =>
    rw [hpd] at hpre
    have := (List.cons_prefix_cons.mp hpre).1
    simp [← this]

theorem rmtree_dirExists_self (fs : FS) (d : String) :
    (fs.rmtree d).dirExists d = false := by
  cases h : (fs.rmtree d).dirExists d with
  | false => rfl
  | true =>
    exfalso
    have := (mem_rmtree_dirs fs d d).mp ((dirExists_iff _ _).mp h)
    exact this.2.1 rfl

theorem mem_rmtree_files_out (fs : FS) (d p c : String)
    (h : (p, c) ∈ (fs.rmtree d).files) : underDir d p = false := by
  have := List.mem_filter.mp h
  simpa using this.2

/-- The filesystem `stop_all_instances` ends with, extracted from the
definition: the directory loop applied after ensuring `.backup` exists. -/
theorem stop_all_fs (env : Env) (w : World) :
    (stop_all_instances env w).world.fs =
      stop_all_loop w.clock (w.fs.mkdirP ".backup")
        (sortedNames ((w.fs.mkdirP ".backup").dirs.filter
          (fun d => validName d))) := by
  simp only [stop_all_instances]
  split <;> split <;> rfl

/-- C5 (amended): `stop_all_instances` issues its initial `kill-session`
iff the session existed at entry and its final `kill-session` iff the
session existed at entry AND still exists at the re-probe — never when the
session was absent at the start, however the re-probe turns out. -/
theorem stop_all_trace (env : Env) (w : World) :
    (stop_all_instances env w).trace =
      if w.tmux.sessionExists then
        (if env.respawned.isSome then
          [TmuxCmd.killSession, TmuxCmd.killSession]
         else [TmuxCmd.killSession])
      else [] := by
  rcases w with ⟨fs, ⟨ws⟩, clock⟩
  rcases env with ⟨res⟩
  cases ws with
  | none =>
    cases res with
    | none => rfl
    | some rws => rfl
  | some ws =>
    cases res with
    | none => rfl
    | some rws => rfl

theorem collect_block_endsWith (fs : FS) (n : String) :
    strEndsWith (collect_block fs n) "\n" = true := by
  have hnl : ("\n" : String).data = ['\n'] := rfl
  cases hread : fs.readFile (n ++ "/out.txt") with
  | none =>
    simp only [collect_block, hread]
    simp only [strEndsWith, hnl]
    apply List.isSuffixOf_iff_suffix.mpr
    rw [String.data_append, hnl]
    exact List.suffix_append _ _
  | some content =>
    simp only [collect_block, hread]
    by_cases hempty : (content == "") = true
    · rw [if_pos hempty]
      simp only [strEndsWith, hnl]
      apply List.isSuffixOf_iff_suffix.mpr
      rw [String.data_append, hnl]
      exact List.suffix_append _ _
    · rw [if_neg hempty]
      by_cases hends : strEndsWith content "\n" = true
      · rw [if_pos hends]
        simp only [strEndsWith, hnl]
        apply List.isSuffixOf_iff_suffix.mpr
        have hc : ['\n'] <:+ content.data := by
          have := List.isSuffixOf_iff_suffix.mp hends
          rwa [hnl] at this
        simp only [String.data_append, List.append_nil]
        exact hc.trans (List.suffix_append _ _)
      · rw [if_neg hends]
        simp only [strEndsWith, hnl]
        apply List.isSuffixOf_iff_suffix.mpr
        rw [String.data_append, hnl]
        exact List.suffix_append _ _

theorem collect_block_header (fs : FS) (n : String) :
    ∃ t, collect_block fs n = "=== server: " ++ n ++ " ===" ++ "\n" ++ t := by
  cases hread : fs.readFile (n ++ "/out.txt") with
  | none =>
    simp only [collect_block, hread]
    exact ⟨"", (String.append_empty _).symm⟩
  | some content =>
    simp only [collect_block, hread]
    by_cases hempty : (content == "") = true
    · rw [if_pos hempty]
      exact ⟨"", (String.append_empty _).symm⟩
    · rw [if_neg hempty]
      exact ⟨content ++ (if strEndsWith content "\n" then "" else "\n"),
        by rw [String.append_assoc, String.append_assoc]⟩

theorem collect_lines_false_eq (fs : FS) (l : List String) :
    collect_lines fs l false =
      match l with
      | [] => ""
      | _ :: _ => "\n" ++ collect_lines fs l true := by
  cases l with
  | nil => rfl
  | cons n rest =>
    simp [collect_lines, String.empty_append, String.append_assoc]

theorem collect_lines_eq (fs : FS) :
    ∀ l, collect_lines fs l true = joinSep "\n" (l.map (collect_block fs)) := by
  intro l
  induction l with
  | nil => rfl
  | cons n rest ih =>
    simp only [collect_lines, String.empty_append]
    rw [collect_lines_false_eq]
    cases rest with
    | nil => simp [joinSep, String.append_empty]
    | cons m ms =>
      rw [ih]
      simp [List.map, joinSep, String.append_assoc, String.empty_append]

/-- C6: `collect_all_instances` prints nothing when the session does not
exist; otherwise its output is one block per window, the blocks ordered by
ascending (sorted) instance name and joined by a single separating blank
line (the separator appears between consecutive blocks only, never after
the last); every block begins with its instance header line and ends with
a line break. -/
theorem C6_collect_all_shape (w : World) :
    collect_all_instances w =
      (if w.tmux.sessionExists then
        joinSep "\n"
          ((sortedNames w.tmux.listWindows).map (collect_block w.fs))
      else "")
    ∧ List.Sorted (fun a b : String => strLe a b = true)
        (sortedNames w.tmux.listWindows)
    ∧ List.Perm (sortedNames w.tmux.listWindows) w.tmux.listWindows
    ∧ (∀ n, strEndsWith (collect_block w.fs n) "\n" = true)
    ∧ (∀ n, ∃ t, collect_block w.fs n =
        "=== server: " ++ n ++ " ===" ++ "\n" ++ t) := by
  refine ⟨?_, sortedNames_sorted _, sortedNames_perm _,
    fun n => collect_block_endsWith w.fs n,
    fun n => collect_block_header w.fs n⟩
  cases h : w.tmux.sessionExists with
  | false => simp [collect_all_instances, h]
  | true => simp [collect_all_instances, h, collect_lines_eq]

/-- C3 counterexample: the window `web` has the non-empty stored content
"hi\n\n" ending in two line breaks; `collect_all_instances` prints it
as-is, so the output block ends with two line breaks, not exactly one. -/
theorem C3_counterexample :
    collect_all_instances
        ⟨⟨["web"], [("web/out.txt", "hi\n\n")]⟩, ⟨some ["web"]⟩, 0⟩ =
      "=== server: web ===" ++ "\n" ++ "hi\n\n"
    ∧ strEndsWith
        (collect_all_instances
          ⟨⟨["web"], [("web/out.txt", "hi\n\n")]⟩, ⟨some ["web"]⟩, 0⟩)
        ("\n" ++ "\n") = true := by
  exact ⟨by decide, by decide⟩

/-- C3 (amended): for an instance window with an existing non-empty log,
the block printed by `collect_all_instances` is the header followed by the
content verbatim with one line break appended only when the content does
not already end in one; the block therefore ends in at least one line
break (content ending in k ≥ 2 breaks keeps all k).  The source reads the
log with `errors="replace"` UTF-8 decoding, so the model works on decoded
text, not raw bytes. -/
theorem C3_amended (w : World) (name content : String)
    (hw : w.tmux.windows = some [name])
    (hread : w.fs.readFile (name ++ "/out.txt") = some content)
    (hne : (content == "") = false) :
    collect_all_instances w =
      "=== server: " ++ name ++ " ===" ++ "\n" ++ content ++
        (if strEndsWith content "\n" then "" else "\n")
    ∧ strEndsWith (collect_all_instances w) "\n" = true := by
  have hsess : w.tmux.sessionExists = true := by
    simp [Tmux.sessionExists, hw]
  have hlist : w.tmux.listWindows = [name] := by
    simp [Tmux.listWindows, hw]
  have hsort : sortedNames [name] = [name] := rfl
  have hblock : collect_all_instances w = collect_block w.fs name := by
    simp only [collect_all_instances, hsess, Bool.not_true]
    rw [if_neg (by simp), hlist, hsort]
    simp [collect_lines, String.empty_append, String.append_empty]
  constructor
  · rw [hblock]
    simp only [collect_block, hread]
    rw [if_neg (by simp [hne])]
  · rw [hblock]
    exact collect_block_endsWith _ _

/-- Witness for the amended C3: a session with the single window `web`
whose log holds "hi". -/
theorem C3_amended_witness :
    collect_all_instances
        ⟨⟨["web"], [("web/out.txt", "hi")]⟩, ⟨some ["web"]⟩, 0⟩ =
      "=== server: " ++ "web" ++ " ===" ++ "\n" ++ "hi" ++
        (if strEndsWith "hi" "\n" then "" else "\n")
    ∧ strEndsWith
        (collect_all_instances
          ⟨⟨["web"], [("web/out.txt", "hi")]⟩, ⟨some ["web"]⟩, 0⟩)
        "\n" = true :=
  C3_amended _ "web" "hi" rfl rfl (by decide)

/-- C1 counterexample: unlike `stopAll`, `stop` computes the backup path
from the raw timestamp with no collision loop, and `shutil.move` replaces
an existing destination file: stopping `web` at clock 5 with a
pre-existing backup `.backup/out_web_5.txt` succeeds and silently changes
that backup's content from "old" to "new" — a backup file under
`.backup` is overwritten and is not immutable once written. -/
theorem C1_counterexample :
    (stop_instance
        ⟨⟨["web", ".backup"],
          [("web/out.txt", "new"), (".backup/out_web_5.txt", "old")]⟩,
        ⟨some ["web"]⟩, 5⟩ "web").2 = none
    ∧ (World.mk
        ⟨["web", ".backup"],
          [("web/out.txt", "new"), (".backup/out_web_5.txt", "old")]⟩
        ⟨some ["web"]⟩ 5).fs.readFile ".backup/out_web_5.txt" = some "old"
    ∧ (stop_instance
        ⟨⟨["web", ".backup"],
          [("web/out.txt", "new"), (".backup/out_web_5.txt", "old")]⟩,
        ⟨some ["web"]⟩, 5⟩ "web").1.fs.readFile ".backup/out_web_5.txt" =
      some "new" := by
  exact ⟨by decide, by decide, by decide⟩

/-- C1 (amended): in `stopAll` the backup filename starts from the current
timestamp and is incremented while the candidate path already exists, so
`stopAll` never overwrites a file under `.backup`: every pre-existing
backup file survives with its exact content.  `stop`, by contrast, uses
the raw timestamp with no collision handling and can overwrite (see the
counterexample). -/
theorem C1_amended (env : Env) (w : World) (p c : String)
    (hmem : (p, c) ∈ w.fs.files) (hp : underDir ".backup" p = true) :
    (p, c) ∈ (stop_all_instances env w).world.fs.files := by
  rw [stop_all_fs]
  apply stop_all_loop_files
  · rw [mkdirP_files]
    exact hmem
  · intro n hn
    have hmemf := List.mem_filter.mp (mem_sortedNames.mp hn)
    have hn' : validName n = true := by simpa using hmemf.2
    exact underDir_false_of_dot n p hn' (underDir_backup_head p hp)

/-- Witness for the amended C1: a pre-existing backup file written at
timestamp 5 survives a `stopAll` that archives a matching directory at the
same clock value. -/
theorem C1_amended_witness :
    (".backup/out_web_5.txt", "old") ∈
      (stop_all_instances ⟨none⟩
        ⟨⟨["web", ".backup"],
          [("web/out.txt", "new"), (".backup/out_web_5.txt", "old")]⟩,
        ⟨some ["web"]⟩, 5⟩).world.fs.files :=
  C1_amended ⟨none⟩ _ ".backup/out_web_5.txt" "old" (by decide) (by decide)

/-- C4 counterexample: `stopAll` with an empty current directory and no
session succeeds, but it does not leave the filesystem unchanged: it
creates the `.backup` directory (`backup_dir.mkdir(exist_ok=True)` runs
unconditionally). -/
theorem C4_counterexample :
    (stop_all_instances ⟨none⟩
        ⟨⟨[], []⟩, ⟨none⟩, 0⟩).world.fs.dirExists ".backup" = true
    ∧ (World.mk ⟨[], []⟩ ⟨none⟩ 0).fs.dirExists ".backup" = false
    ∧ (stop_all_instances ⟨none⟩ ⟨⟨[], []⟩, ⟨none⟩, 0⟩).world.fs ≠
        FS.mk [] [] := by
  exact ⟨by decide, by decide, by decide⟩

/-- C4 (amended): `stopAll` with no session, no directory matching the
instance-name pattern, and a quiescent environment succeeds, issues no
tmux command, archives and removes nothing, and leaves the session state
and every file unchanged; its only filesystem effect is ensuring `.backup`
exists.  When `.backup` already exists the whole world is unchanged. -/
theorem C4_amended (w : World) (hsess : w.tmux.sessionExists = false)
    (hdirs : w.fs.dirs.all (fun d => !validName d) = true) :
    (stop_all_instances ⟨none⟩ w).world.fs = w.fs.mkdirP ".backup"
    ∧ (stop_all_instances ⟨none⟩ w).world.tmux = w.tmux
    ∧ (stop_all_instances ⟨none⟩ w).trace = []
    ∧ (w.fs.dirExists ".backup" = true →
        (stop_all_instances ⟨none⟩ w).world = w) := by
  have hfilter :
      (w.fs.mkdirP ".backup").dirs.filter (fun d => validName d) = [] := by
    apply List.filter_eq_nil_iff.mpr
    intro d hd
    rcases (mem_mkdirP_dirs w.fs ".backup" d).mp hd with rfl | hmem
    · decide
    · have := List.all_eq_true.mp hdirs d hmem
      simpa using this
  have hfs : (stop_all_instances ⟨none⟩ w).world.fs = w.fs.mkdirP ".backup" := by
    rw [stop_all_fs, hfilter]
    rfl
  have htm : (stop_all_instances ⟨none⟩ w).world.tmux = w.tmux := by
    simp [stop_all_instances, hsess, Bool.false_and]
  have htr : (stop_all_instances ⟨none⟩ w).trace = [] := by
    simp [stop_all_instances, hsess, Bool.false_and]
  have hck : (stop_all_instances ⟨none⟩ w).world.clock = w.clock := by
    simp only [stop_all_instances]
    split <;> split <;> rfl
  refine ⟨hfs, htm, htr, fun hbk => ?_⟩
  have hpk : w.fs.mkdirP ".backup" = w.fs := by
    simp [FS.mkdirP, hbk]
  have hsplit : (stop_all_instances ⟨none⟩ w).world =
      ⟨(stop_all_instances ⟨none⟩ w).world.fs,
       (stop_all_instances ⟨none⟩ w).world.tmux,
       (stop_all_instances ⟨none⟩ w).world.clock⟩ := rfl
  rw [hsplit, hfs, htm, hck, hpk]

/-- Witness for the amended C4: a world with one non-matching directory,
one file, and no session. -/
theorem C4_amended_witness :
    (stop_all_instances ⟨none⟩
        ⟨⟨["Docs"], [("a.txt", "x")]⟩, ⟨none⟩, 7⟩).world.fs =
      (FS.mk ["Docs"] [("a.txt", "x")]).mkdirP ".backup"
    ∧ (stop_all_instances ⟨none⟩
        ⟨⟨["Docs"], [("a.txt", "x")]⟩, ⟨none⟩, 7⟩).world.tmux = Tmux.mk none
    ∧ (stop_all_instances ⟨none⟩
        ⟨⟨["Docs"], [("a.txt", "x")]⟩, ⟨none⟩, 7⟩).trace = [] :=
  ⟨(C4_amended _ (by decide) (by decide)).1,
   (C4_amended _ (by decide) (by decide)).2.1,
   (C4_amended _ (by decide) (by decide)).2.2.1⟩

/-- C5 counterexample: the session does not exist when `stopAll` begins
but does exist at the final re-probe (an external actor recreated it with
window `x`): the session is then live at the end of the run, yet no
`kill-session` is issued at all, because the final kill is additionally
guarded by the session having existed at entry. -/
theorem C5_counterexample :
    (stop_all_instances ⟨some ["x"]⟩
        ⟨⟨[], []⟩, ⟨none⟩, 0⟩).world.tmux.sessionExists = true
    ∧ (stop_all_instances ⟨some ["x"]⟩ ⟨⟨[], []⟩, ⟨none⟩, 0⟩).trace = [] := by
  exact ⟨by decide, by decide⟩

/-- C10: `stopAll` archives and removes exactly the directories whose name
matches `[a-z]{1,32}`: after it runs no matching directory remains; every
non-matching directory that is not nested inside a matching one is still
present; the `.backup` directory itself is present (never archived or
removed); and every file not inside a matching directory keeps its exact
content. -/
theorem C10_frame (env : Env) (w : World) :
    (∀ d, validName d = true →
      (stop_all_instances env w).world.fs.dirExists d = false)
    ∧ (∀ d, d ∈ w.fs.dirs → validName d = false →
        (∀ m ∈ w.fs.dirs, validName m = true → underDir m d = false) →
        d ∈ (stop_all_instances env w).world.fs.dirs)
    ∧ (stop_all_instances env w).world.fs.dirExists ".backup" = true
    ∧ (∀ p c, (p, c) ∈ w.fs.files →
        (∀ m ∈ w.fs.dirs, validName m = true → underDir m p = false) →
        (p, c) ∈ (stop_all_instances env w).world.fs.files) := by
  have hname : ∀ n, n ∈ sortedNames ((w.fs.mkdirP ".backup").dirs.filter
      (fun d => validName d)) → validName n = true ∧ n ∈ w.fs.dirs := by
    intro n hn
    have hmemf := List.mem_filter.mp (mem_sortedNames.mp hn)
    have hv : validName n = true := by simpa using hmemf.2
    refine ⟨hv, ?_⟩
    rcases (mem_mkdirP_dirs w.fs ".backup" n).mp hmemf.1 with rfl | hmem
    · exact absurd hv (by decide)
    · exact hmem
  refine ⟨?_, ?_, ?_, ?_⟩
  · intro d hval
    rw [stop_all_fs]
    cases h : (stop_all_loop w.clock (w.fs.mkdirP ".backup")
        (sortedNames ((w.fs.mkdirP ".backup").dirs.filter
          (fun d => validName d)))).dirExists d with
    | false => rfl
    | true =>
      exfalso
      have hmem := (stop_all_loop_dirs _ _ _ _).mp ((dirExists_iff _ _).mp h)
      have hdn : d ∈ sortedNames ((w.fs.mkdirP ".backup").dirs.filter
          (fun x => validName x)) := by
        apply mem_sortedNames.mpr
        exact List.mem_filter.mpr ⟨hmem.1, by simpa using hval⟩
      exact (hmem.2 d hdn).1 rfl
  · intro d hd hnv hframe
    rw [stop_all_fs]
    apply (stop_all_loop_dirs _ _ _ _).mpr
    refine ⟨(mem_mkdirP_dirs w.fs ".backup" d).mpr (Or.inr hd), ?_⟩
    intro n hn
    rcases hname n hn with ⟨hv, hmem⟩
    constructor
    · rintro rfl
      rw [hv] at hnv
      exact absurd hnv (by decide)
    · exact hframe n hmem hv
  · rw [stop_all_fs]
    apply (dirExists_iff _ _).mpr
    apply (stop_all_loop_dirs _ _ _ _).mpr
    refine ⟨(mem_mkdirP_dirs w.fs ".backup" ".backup").mpr (Or.inl rfl), ?_⟩
    intro n hn
    rcases hname n hn with ⟨hv, _⟩
    constructor
    · rintro rfl
      exact absurd hv (by decide)
    · exact underDir_false_of_dot n ".backup" hv rfl
  · intro p c hmem hframe
    rw [stop_all_fs]
    apply stop_all_loop_files
    · rw [mkdirP_files]
      exact hmem
    · intro n hn
      rcases hname n hn with ⟨hv, hmemd⟩
      exact hframe n hmemd hv

/-- Witness for C10: the non-matching directory `Data` (uppercase letter)
survives a `stopAll` that removes the matching directory `web`. -/
theorem C10_witness :
    "Data" ∈ (stop_all_instances ⟨none⟩
      ⟨⟨["web", "Data", ".backup"], [("Data/k.txt", "v")]⟩,
       ⟨some ["web"]⟩, 3⟩).world.fs.dirs :=
  (C10_frame ⟨none⟩ _).2.1 "Data" (by decide) (by decide) (by decide)

/-- C2 counterexample: a `--name` validation failure makes the
`type=validate_server_name` hook raise `argparse.ArgumentTypeError`, which
argparse turns into `parser.error` and a process exit with status 2 —
before `main`'s try/except ever runs — so a validation failure does not
exit with code 1. -/
theorem C2_counterexample :
    run_cli ⟨false, false⟩ ⟨false, false, false, false, false⟩ ⟨none⟩
      ⟨⟨[], []⟩, ⟨none⟩, 0⟩ (.startArgs "WEB" "8080") = 2 := by
  decide

/-- C2 (amended): the process exit status is always 0, 1, or 2, with an
exact mapping: 2 iff argparse itself rejects the invocation (unknown
subcommand, missing required flag, or a name/port validation failure);
1 iff the subcommand is missing or the dispatched operation reports a
`HomeworkError` (precondition, external-tool, or I/O failure, for any of
the four subcommands); 0 iff a subcommand is present, argparse accepts
it, and the dispatched operation completes without a `HomeworkError`. -/
theorem C2_amended (f : Faults) (io : IOFaults) (env : Env) (w : World)
    (i : CliInput) :
    (run_cli f io env w i = 0 ∨ run_cli f io env w i = 1 ∨
      run_cli f io env w i = 2)
    ∧ (run_cli f io env w i = 2 ↔ argparse_rejects i = true)
    ∧ (run_cli f io env w i = 1 ↔
        (missing_subcommand i = true ∨
          (argparse_rejects i = false ∧
            (main_err f io env w i).isSome = true)))
    ∧ (run_cli f io env w i = 0 ↔
        (missing_subcommand i = false ∧ argparse_rejects i = false ∧
          main_err f io env w i = none)) := by
  cases i with
  | noSubcommand =>
    refine ⟨Or.inr (Or.inl rfl), ?_, ?_, ?_⟩ <;>
      simp [run_cli, argparse_rejects, missing_subcommand, main_err]
  | badUsage =>
    refine ⟨Or.inr (Or.inr rfl), ?_, ?_, ?_⟩ <;>
      simp [run_cli, argparse_rejects, missing_subcommand, main_err]
  | startArgs n p =>
    by_cases hv : validName n = true
    · cases hp : validate_port p with
      | none =>
        have hrun : run_cli f io env w (.startArgs n p) = 2 := by
          simp [run_cli, validate_server_name, hv, hp]
        have hrej : argparse_rejects (.startArgs n p) = true := by
          simp [argparse_rejects, hp]
        have hme : main_err f io env w (.startArgs n p) = none := by
          simp [main_err, validate_server_name, hv, hp]
        refine ⟨Or.inr (Or.inr hrun), ?_, ?_, ?_⟩ <;>
          rw [hrun] <;> simp [hrej, hme, missing_subcommand]
      | some port =>
        have hrej : argparse_rejects (.startArgs n p) = false := by
          simp [argparse_rejects, hv, hp]
        have hme : main_err f io env w (.startArgs n p) =
            (start_instance f w n port).2 := by
          simp [main_err, validate_server_name, hv, hp]
        cases hs : (start_instance f w n port).2 with
        | none =>
          have hrun : run_cli f io env w (.startArgs n p) = 0 := by
            simp [run_cli, validate_server_name, hv, hp, hs]
          refine ⟨Or.inl hrun, ?_, ?_, ?_⟩ <;>
            rw [hrun] <;> simp [hrej, hme, hs, missing_subcommand]
        | some e =>
          have hrun : run_cli f io env w (.startArgs n p) = 1 := by
            simp [run_cli, validate_server_name, hv, hp, hs]
          refine ⟨Or.inr (Or.inl hrun), ?_, ?_, ?_⟩ <;>
            rw [hrun] <;> simp [hrej, hme, hs, missing_subcommand]
    · have hv' : validName n = false := by simpa using hv
      have hrun : run_cli f io env w (.startArgs n p) = 2 := by
        simp [run_cli, validate_server_name, hv']
      have hrej : argparse_rejects (.startArgs n p) = true := by
        simp [argparse_rejects, hv']
      have hme : main_err f io env w (.startArgs n p) = none := by
        simp [main_err, validate_server_name, hv']
      refine ⟨Or.inr (Or.inr hrun), ?_, ?_, ?_⟩ <;>
        rw [hrun] <;> simp [hrej, hme, missing_subcommand]
  | stopArgs n =>
    by_cases hv : validName n = true
    · have hrej : argparse_rejects (.stopArgs n) = false := by
        simp [argparse_rejects, hv]
      have hme : main_err f io env w (.stopArgs n) =
          (stop_instance w n).2 := by
        simp [main_err, validate_server_name, hv]
      cases hs : (stop_instance w n).2 with
      | none =>
        have hrun : run_cli f io env w (.stopArgs n) = 0 := by
          simp [run_cli, validate_server_name, hv, hs]
        refine ⟨Or.inl hrun, ?_, ?_, ?_⟩ <;>
          rw [hrun] <;> simp [hrej, hme, hs, missing_subcommand]
      | some e =>
        have hrun : run_cli f io env w (.stopArgs n) = 1 := by
          simp [run_cli, validate_server_name, hv, hs]
        refine ⟨Or.inr (Or.inl hrun), ?_, ?_, ?_⟩ <;>
          rw [hrun] <;> simp [hrej, hme, hs, missing_subcommand]
    · have hv' : validName n = false := by simpa using hv
      have hrun : run_cli f io env w (.stopArgs n) = 2 := by
        simp [run_cli, validate_server_name, hv']
      have hrej : argparse_rejects (.stopArgs n) = true := by
        simp [argparse_rejects, hv']
      have hme : main_err f io env w (.stopArgs n) = none := by
        simp [main_err, validate_server_name, hv']
      refine ⟨Or.inr (Or.inr hrun), ?_, ?_, ?_⟩ <;>
        rw [hrun] <;> simp [hrej, hme, missing_subcommand]
  | stopAllArgs =>
    cases hso : stop_all_err io env w with
    | none =>
      have hrun : run_cli f io env w .stopAllArgs = 0 := by
        simp [run_cli, hso]
      refine ⟨Or.inl hrun, ?_, ?_, ?_⟩ <;> rw [hrun] <;>
        simp [argparse_rejects, missing_subcommand, main_err, hso]
    | some e =>
      have hrun : run_cli f io env w .stopAllArgs = 1 := by
        simp [run_cli, hso]
      refine ⟨Or.inr (Or.inl hrun), ?_, ?_, ?_⟩ <;> rw [hrun] <;>
        simp [argparse_rejects, missing_subcommand, main_err, hso]
  | collectAllArgs =>
    cases hco : collect_all_err io w with
    | none =>
      have hrun : run_cli f io env w .collectAllArgs = 0 := by
        simp [run_cli, hco]
      refine ⟨Or.inl hrun, ?_, ?_, ?_⟩ <;> rw [hrun] <;>
        simp [argparse_rejects, missing_subcommand, main_err, hco]
    | some e =>
      have hrun : run_cli f io env w .collectAllArgs = 1 := by
        simp [run_cli, hco]
      refine ⟨Or.inr (Or.inl hrun), ?_, ?_, ?_⟩ <;> rw [hrun] <;>
        simp [argparse_rejects, missing_subcommand, main_err, hco]

/-- C7: when `start` has passed its preconditions and created the instance
directory, a failure of the copy step or of the window/session creation
step removes the just-created directory (and everything inside it) before
the error is returned, and leaves the tmux state untouched: a failed
`start` leaves no partial instance directory behind. -/
theorem C7_start_rollback (f : Faults) (w : World) (n : String) (port : Int)
    (hserver : w.fs.fileExists "server.py" = true)
    (hentry : w.fs.entryExists n = false)
    (hwin : (w.tmux.sessionExists && w.tmux.windowExists n) = false)
    (hfail : (f.copyFails || f.tmuxNewFails) = true) :
    (start_instance f w n port).2 =
      some (if f.copyFails then HwErr.copyFailed n
        else HwErr.tmuxCommandFailed
          (if w.tmux.sessionExists then "new-window" else "new-session"))
    ∧ (start_instance f w n port).1.fs.dirExists n = false
    ∧ (∀ p c, (p, c) ∈ (start_instance f w n port).1.fs.files →
        underDir n p = false)
    ∧ (start_instance f w n port).1.tmux = w.tmux := by
  cases hc : f.copyFails with
  | true =>
    have hstep : start_instance f w n port =
        ({ w with fs := (w.fs.mkdir n).rmtree n }, some (.copyFailed n)) := by
      simp [start_instance, hserver, hentry, hwin, hc]
    rw [hstep]
    refine ⟨by simp [hc], rmtree_dirExists_self _ _, ?_, rfl⟩
    intro p c hmem
    exact mem_rmtree_files_out _ _ _ _ hmem
  | false =>
    have ht : f.tmuxNewFails = true := by
      rw [hc] at hfail
      simpa using hfail
    have hstep : start_instance f w n port =
        ({ w with fs := ((w.fs.mkdir n).writeFile (n ++ "/server.py")
            ((w.fs.readFile "server.py").getD "")).rmtree n },
         some (.tmuxCommandFailed
           (if w.tmux.sessionExists then "new-window" else "new-session"))) := by
      simp [start_instance, hserver, hentry, hwin, hc, ht]
    rw [hstep]
    refine ⟨by simp [hc], rmtree_dirExists_self _ _, ?_, rfl⟩
    intro p c hmem
    exact mem_rmtree_files_out _ _ _ _ hmem

/-- Witness for C7: copy failure during `start web` on a fresh world rolls
the directory back. -/
theorem C7_witness :
    (start_instance ⟨true, false⟩
        ⟨⟨[], [("server.py", "SRC")]⟩, ⟨none⟩, 0⟩ "web" 1).2 =
      some (HwErr.copyFailed "web")
    ∧ (start_instance ⟨true, false⟩
        ⟨⟨[], [("server.py", "SRC")]⟩, ⟨none⟩, 0⟩ "web" 1).1.fs.dirExists "web"
      = false
    ∧ (start_instance ⟨true, false⟩
        ⟨⟨[], [("server.py", "SRC")]⟩, ⟨none⟩, 0⟩ "web" 1).1.tmux =
      Tmux.mk none :=
  ⟨(C7_start_rollback ⟨true, false⟩ ⟨⟨[], [("server.py", "SRC")]⟩, ⟨none⟩, 0⟩
      "web" 1 (by decide) (by decide) (by decide) (by decide)).1,
   (C7_start_rollback ⟨true, false⟩ ⟨⟨[], [("server.py", "SRC")]⟩, ⟨none⟩, 0⟩
      "web" 1 (by decide) (by decide) (by decide) (by decide)).2.1,
   (C7_start_rollback ⟨true, false⟩ ⟨⟨[], [("server.py", "SRC")]⟩, ⟨none⟩, 0⟩
      "web" 1 (by decide) (by decide) (by decide) (by decide)).2.2.2⟩

/-- C8: `start(n, p)` with a directory (or any entry) named `n` already
present fails with a precondition failure — `directory already exists`
when the server artifact is present, `server.py not found` otherwise —
and mutates neither the filesystem nor the session/window state: the
returned world is exactly the input world. -/
theorem C8_start_dir_exists (f : Faults) (w : World) (n : String) (port : Int)
    (hdir : w.fs.dirExists n = true) :
    (start_instance f w n port).1 = w
    ∧ (start_instance f w n port).2 =
        some (if w.fs.fileExists "server.py" then HwErr.dirAlreadyExists n
          else HwErr.serverNotFound)
    ∧ (if w.fs.fileExists "server.py" then HwErr.dirAlreadyExists n
        else HwErr.serverNotFound).isPrecondition = true := by
  have hentry : w.fs.entryExists n = true := by
    simp [FS.entryExists, hdir]
  cases hsrv : w.fs.fileExists "server.py" with
  | false =>
    refine ⟨?_, ?_, ?_⟩ <;>
      simp [start_instance, hsrv, HwErr.isPrecondition]
  | true =>
    refine ⟨?_, ?_, ?_⟩ <;>
      simp [start_instance, hsrv, hentry, HwErr.isPrecondition]

/-- Witness for C8: starting `web` when the directory `web` already
exists. -/
theorem C8_witness :
    (start_instance ⟨false, false⟩
        ⟨⟨["web"], [("server.py", "SRC")]⟩, ⟨none⟩, 0⟩ "web" 1).1 =
      World.mk ⟨["web"], [("server.py", "SRC")]⟩ ⟨none⟩ 0
    ∧ (start_instance ⟨false, false⟩
        ⟨⟨["web"], [("server.py", "SRC")]⟩, ⟨none⟩, 0⟩ "web" 1).2 =
      some (HwErr.dirAlreadyExists "web") :=
  ⟨(C8_start_dir_exists ⟨false, false⟩
      ⟨⟨["web"], [("server.py", "SRC")]⟩, ⟨none⟩, 0⟩ "web" 1 (by decide)).1,
   (C8_start_dir_exists ⟨false, false⟩
      ⟨⟨["web"], [("server.py", "SRC")]⟩, ⟨none⟩, 0⟩ "web" 1 (by decide)).2.1⟩

/-- C9: `stop(n)` with the instance directory present but the window `n`
absent fails with a distinct precondition failure — `window not found`
when the session exists, `session not found` when it does not — and
returns the input world unchanged: neither the instance directory nor any
log file is removed. -/
theorem C9_stop_window_missing (w : World) (n : String)
    (hdir : w.fs.dirExists n = true)
    (hwin : w.tmux.windowExists n = false) :
    (stop_instance w n).1 = w
    ∧ (stop_instance w n).2 =
        some (if w.tmux.sessionExists then HwErr.windowNotFound n
          else HwErr.sessionNotFound)
    ∧ (if w.tmux.sessionExists then HwErr.windowNotFound n
        else HwErr.sessionNotFound).isPrecondition = true := by
  have hentry : w.fs.entryExists n = true := by
    simp [FS.entryExists, hdir]
  cases hs : w.tmux.sessionExists with
  | false =>
    refine ⟨?_, ?_, ?_⟩ <;>
      simp [stop_instance, hentry, hs, HwErr.isPrecondition]
  | true =>
    refine ⟨?_, ?_, ?_⟩ <;>
      simp [stop_instance, hentry, hs, hwin, HwErr.isPrecondition]

/-- Witness for C9: stopping `web` whose directory exists while the
session has only the window `api`. -/
theorem C9_witness :
    (stop_instance ⟨⟨["web"], [("web/out.txt", "x")]⟩, ⟨some ["api"]⟩, 9⟩
        "web").1 =
      World.mk ⟨["web"], [("web/out.txt", "x")]⟩ ⟨some ["api"]⟩ 9
    ∧ (stop_instance ⟨⟨["web"], [("web/out.txt", "x")]⟩, ⟨some ["api"]⟩, 9⟩
        "web").2 = some (HwErr.windowNotFound "web") :=
  ⟨(C9_stop_window_missing
      ⟨⟨["web"], [("web/out.txt", "x")]⟩, ⟨some ["api"]⟩, 9⟩ "web"
      (by decide) (by decide)).1,
   (C9_stop_window_missing
      ⟨⟨["web"], [("web/out.txt", "x")]⟩, ⟨some ["api"]⟩, 9⟩ "web"
      (by decide) (by decide)).2.1⟩

end HW
